import Mathlib

/-!
Verification of the early-stopping controller of the sciml-workshop-pytorch
repository.  The controller is the `EarlyStopping` class defined in the
notebook cell (src/unnamed/part_000, lines 860-907).  Its Python source:

  class EarlyStopping:
      def __init__(self, patience=7, verbose=False, delta=0,
                   path='checkpoint.pt', trace_func=print):
          self.patience = patience
          self.verbose = verbose
          self.counter = 0
          self.best_score = None
          self.early_stop = False
          self.val_loss_min = np.Inf
          self.delta = delta
          self.path = path
          self.trace_func = trace_func
      def __call__(self, val_loss, model):
          score = -val_loss
          if self.best_score is None:
              self.best_score = score
              self.save_checkpoint(val_loss, model)
          elif score < self.best_score + self.delta:
              self.counter += 1
              self.trace_func(...)
              if self.counter >= self.patience:
                  self.early_stop = True
          else:
              self.best_score = score
              self.save_checkpoint(val_loss, model)
              self.counter = 0
      def save_checkpoint(self, val_loss, model):
          if self.verbose:
              self.trace_func(...)
          torch.save(model.state_dict(), self.path)
          self.val_loss_min = val_loss

Embedding choices: metric values (`val_loss`, `score`, `delta`) are exact
rationals; `val_loss_min`, initialised to `np.Inf`, lives in `WithTop ℚ`
with `⊤` standing for the infinity; `patience` and `counter` are integers
(Python ints).  The model object, the checkpoint path, `verbose` and
`trace_func` only feed the opaque I/O side effects (`torch.save`, printing);
the persistence side effect is made observable by having the step function
return, alongside the new state, the number of times `save_checkpoint`
(hence the persist callback `torch.save`) ran during that call.
-/

/-- The mutable fields of the `EarlyStopping` object that carry semantic
state.  `val_loss_min = ⊤` represents `np.Inf`. -/
structure EarlyStopping where
  patience : ℤ
  delta : ℚ
  counter : ℤ
  best_score : Option ℚ
  early_stop : Bool
  val_loss_min : WithTop ℚ
deriving DecidableEq, Repr

namespace EarlyStopping

/-- `EarlyStopping.__init__`: stores `patience` and `delta`, sets
`counter = 0`, `best_score = None`, `early_stop = False`,
`val_loss_min = np.Inf`.  No validation is performed on any argument. -/
def init (patience : ℤ) (delta : ℚ) : EarlyStopping :=
  { patience := patience
    delta := delta
    counter := 0
    best_score := none
    early_stop := false
    val_loss_min := ⊤ }

/-- `EarlyStopping.save_checkpoint`: calls `torch.save` (opaque persistence)
and records `val_loss_min = val_loss`.  The persist invocation itself is
counted by the caller (`call`). -/
def save_checkpoint (self : EarlyStopping) (val_loss : ℚ) : EarlyStopping :=
  { self with val_loss_min := (val_loss : WithTop ℚ) }

/-- `EarlyStopping.__call__`: one observation of the validation loss.
Returns the updated object together with the number of `save_checkpoint`
(persist) invocations made during the call (0 or 1). -/
def call (self : EarlyStopping) (val_loss : ℚ) : EarlyStopping × ℕ :=
  let score : ℚ := -val_loss
  match self.best_score with
  | none =>
      (({ self with best_score := some score }).save_checkpoint val_loss, 1)
  | some best =>
      if score < best + self.delta then
        let c := self.counter + 1
        ({ self with
            counter := c
            early_stop := if c ≥ self.patience then true else self.early_stop }, 0)
      else
        (({ self with
              best_score := some score
              counter := 0 }).save_checkpoint val_loss, 1)

/-- New state after one call (discarding the persist count). -/
def callSt (self : EarlyStopping) (val_loss : ℚ) : EarlyStopping :=
  (self.call val_loss).1

/-- State after observing a whole list of validation losses in order. -/
def runCalls (self : EarlyStopping) : List ℚ → EarlyStopping
  | [] => self
  | m :: ms => (self.callSt m).runCalls ms

/-- Trace of a run: for each call, the state just after it and the number of
persist invocations the call made. -/
def trace (self : EarlyStopping) : List ℚ → List (EarlyStopping × ℕ)
  | [] => []
  | m :: ms => self.call m :: (self.callSt m).trace ms

/-- State after the first `k+1` calls of the run (0-indexed call `k`). -/
def stateAfter (self : EarlyStopping) (ms : List ℚ) (k : ℕ) : EarlyStopping :=
  self.runCalls (ms.take (k + 1))

/-- The validation losses persisted during a run, in order. -/
def savesDuring (self : EarlyStopping) : List ℚ → List ℚ
  | [] => []
  | m :: ms =>
      (if (self.call m).2 = 1 then [m] else []) ++ (self.callSt m).savesDuring ms

/-- First call (`best_score is None`): record the score, persist, leave
`counter` and `early_stop` alone. -/
theorem call_first (s : EarlyStopping) (m : ℚ) (hb : s.best_score = none) :
    s.call m =
      ({ s with best_score := some (-m), val_loss_min := (m : WithTop ℚ) }, 1) := by
  simp [call, save_checkpoint, hb]

/-- Non-improving call (`score < best_score + delta`): increment the counter,
set `early_stop` when the incremented counter reaches `patience`, no persist. -/
theorem call_worse {b : ℚ} (s : EarlyStopping) (m : ℚ) (hb : s.best_score = some b)
    (h : -m < b + s.delta) :
    s.call m =
      ({ s with
          counter := s.counter + 1
          early_stop :=
            if s.counter + 1 ≥ s.patience then true else s.early_stop }, 0) := by
  simp [call, hb, h]

/-- Improving call (`score ≥ best_score + delta`, ties included): record the
score, reset the counter, persist. -/
theorem call_better {b : ℚ} (s : EarlyStopping) (m : ℚ) (hb : s.best_score = some b)
    (h : b + s.delta ≤ -m) :
    s.call m =
      ({ s with
          best_score := some (-m)
          counter := 0
          val_loss_min := (m : WithTop ℚ) }, 1) := by
  simp [call, save_checkpoint, hb, not_lt.mpr h]

/-- Invariants of every state reachable from `init p d`: the configuration is
unchanged, the counter is a nonnegative count that is `0` while no metric has
been seen, the counter stays below a positive `patience` while not stopped,
and `val_loss_min` mirrors `-best_score` (`np.Inf` before the first call). -/
def GoodState (p : ℤ) (d : ℚ) (s : EarlyStopping) : Prop :=
  s.patience = p ∧ s.delta = d ∧ 0 ≤ s.counter ∧
  (s.best_score = none → s.counter = 0) ∧
  (1 ≤ p → s.early_stop = false → s.counter < p) ∧
  (∀ b : ℚ, s.best_score = some b → s.val_loss_min = ((-b : ℚ) : WithTop ℚ)) ∧
  (s.best_score = none → s.val_loss_min = ⊤)

theorem goodState_init (p : ℤ) (d : ℚ) : GoodState p d (init p d) := by
  refine ⟨rfl, rfl, le_refl 0, fun _ => rfl, fun hp _ => hp, fun b hb => ?_, fun _ => rfl⟩
  simp [init] at hb

theorem goodState_call (p : ℤ) (d : ℚ) (s : EarlyStopping) (m : ℚ)
    (hs : GoodState p d s) : GoodState p d (s.callSt m) := by
  obtain ⟨h1, h2, h3, h4, h5, h6, h7⟩ := hs
  rcases hb : s.best_score with _ | b
  · rw [callSt, call_first s m hb]
    refine ⟨h1, h2, h3, fun _ => h4 hb, fun hp _ => ?_, fun b' hb' => ?_, fun hn => ?_⟩
    · have h0 := h4 hb
      show s.counter < p
      omega
    · obtain rfl : b' = -m := (Option.some.inj hb').symm
      show (m : WithTop ℚ) = ((-(-m) : ℚ) : WithTop ℚ)
      rw [neg_neg]
    · exact Option.noConfusion hn
  · rcases lt_or_le (-m) (b + s.delta) with hlt | hle
    · rw [callSt, call_worse s m hb hlt]
      refine ⟨h1, h2, ?_, fun hn => Option.noConfusion (hb.symm.trans hn), fun hp hstop => ?_,
        fun b' hb' => h6 b' hb', fun hn => h7 hn⟩
      · show 0 ≤ s.counter + 1
        omega
      · show s.counter + 1 < p
        have hstop2 : (if s.counter + 1 ≥ s.patience then true else s.early_stop) = false :=
          hstop
        by_cases hc : s.counter + 1 ≥ s.patience
        · rw [if_pos hc] at hstop2
          exact absurd hstop2 (by simp)
        · rw [h1] at hc
          omega
    · rw [callSt, call_better s m hb hle]
      refine ⟨h1, h2, le_refl 0, fun _ => rfl, fun hp _ => ?_, fun b' hb' => ?_,
        fun hn => Option.noConfusion hn⟩
      · show (0 : ℤ) < p
        omega
      · obtain rfl : b' = -m := (Option.some.inj hb').symm
        show (m : WithTop ℚ) = ((-(-m) : ℚ) : WithTop ℚ)
        rw [neg_neg]

theorem goodState_runCalls (p : ℤ) (d : ℚ) :
    ∀ (ms : List ℚ) (s : EarlyStopping), GoodState p d s →
      GoodState p d (s.runCalls ms)
  | [], _, hs => hs
  | m :: ms, s, hs =>
      goodState_runCalls p d ms (s.callSt m) (goodState_call p d s m hs)

theorem goodState_reach (p : ℤ) (d : ℚ) (ms : List ℚ) :
    GoodState p d ((init p d).runCalls ms) :=
  goodState_runCalls p d ms (init p d) (goodState_init p d)

/-- Closed form of a run in which every metric is worse than the recorded
best (`-best_score < metric`, with `delta = 0`): every call takes the
counter-increment branch, so the counter grows by the length of the run, the
best score is untouched, and the run stops exactly when the counter has ever
reached `patience`. -/
theorem runCalls_worse {b : ℚ} :
    ∀ (ms : List ℚ) (s : EarlyStopping), s.delta = 0 → s.best_score = some b →
      (∀ m ∈ ms, -b < m) →
      (s.runCalls ms).patience = s.patience ∧
      (s.runCalls ms).counter = s.counter + ms.length ∧
      (s.runCalls ms).best_score = some b ∧
      ((s.runCalls ms).early_stop = true ↔
        (s.early_stop = true ∨ (1 ≤ ms.length ∧ s.patience ≤ s.counter + (ms.length : ℤ))))
  | [], s, _, hb, _ => by
      refine ⟨rfl, by simp [runCalls], hb, ?_⟩
      simp [runCalls]
  | m :: ms, s, hd, hb, hm => by
      have hlt : -m < b + s.delta := by
        rw [hd, add_zero]
        have h1 := hm m (List.mem_cons_self m ms)
        linarith
      have hstep : s.callSt m = { s with
          counter := s.counter + 1
          early_stop := if s.counter + 1 ≥ s.patience then true else s.early_stop } := by
        rw [callSt, call_worse s m hb hlt]
      have hrec := runCalls_worse ms (s.callSt m)
        (by rw [hstep]; exact hd) (by rw [hstep]; exact hb)
        (fun x hx => hm x (List.mem_cons_of_mem m hx))
      obtain ⟨hp, hc, hbs, hes⟩ := hrec
      have e1 : (s.callSt m).patience = s.patience := by rw [hstep]
      have e2 : (s.callSt m).counter = s.counter + 1 := by rw [hstep]
      have e3 : (s.callSt m).early_stop =
          (if s.counter + 1 ≥ s.patience then true else s.early_stop) := by rw [hstep]
      have hrun : s.runCalls (m :: ms) = (s.callSt m).runCalls ms := rfl
      refine ⟨?_, ?_, ?_, ?_⟩
      · rw [hrun, hp, e1]
      · rw [hrun, hc, e2, List.length_cons]
        push_cast
        ring
      · rw [hrun]
        exact hbs
      · rw [hrun, hes, e3, e2, e1, List.length_cons]
        cases he : s.early_stop <;>
          by_cases hcp : s.counter + 1 ≥ s.patience <;>
            simp [he, hcp] <;> omega

/-- Closed behaviour of a run of strictly improving metrics: starting from a
state that is not stopped and whose recorded best (if any) is beaten by the
first metric, every call of a strictly decreasing run persists once and
leaves the controller unstopped. -/
theorem trace_decreasing :
    ∀ (ms : List ℚ) (s : EarlyStopping), s.delta = 0 → s.early_stop = false →
      (∀ b m, s.best_score = some b → ms.head? = some m → m < -b) →
      ms.Chain' (fun a b => b < a) →
      ∀ r ∈ s.trace ms, r.1.early_stop = false ∧ r.2 = 1
  | [], _, _, _, _, _ => by simp [trace]
  | m :: ms, s, hd, he, hb, hch => by
      have hch2 : ms.Chain' (fun a b => b < a) := hch.tail
      have hhead : ∀ m' ∈ ms.head?, m' < m := (List.chain'_cons'.mp hch).1
      have hmem : ∀ r, r ∈ s.trace (m :: ms) →
          r = s.call m ∨ r ∈ (s.callSt m).trace ms := by
        intro r hr
        exact List.mem_cons.mp hr
      rcases hbs : s.best_score with _ | b
      · have hstep := call_first s m hbs
        intro r hr
        rcases hmem r hr with rfl | hr2
        · rw [hstep]
          exact ⟨he, rfl⟩
        · refine trace_decreasing ms (s.callSt m) (by rw [callSt, hstep]; exact hd)
            (by rw [callSt, hstep]; exact he) ?_ hch2 r hr2
          intro b' m' hb' hm'
          rw [callSt, hstep] at hb'
          obtain rfl : b' = -m := (Option.some.inj hb').symm
          rw [neg_neg]
          exact hhead m' hm'
      · have hle : b + s.delta ≤ -m := by
          rw [hd, add_zero]
          have := hb b m hbs rfl
          linarith
        have hstep := call_better s m hbs hle
        intro r hr
        rcases hmem r hr with rfl | hr2
        · rw [hstep]
          exact ⟨he, rfl⟩
        · refine trace_decreasing ms (s.callSt m) (by rw [callSt, hstep]; exact hd)
            (by rw [callSt, hstep]; exact he) ?_ hch2 r hr2
          intro b' m' hb' hm'
          rw [callSt, hstep] at hb'
          obtain rfl : b' = -m := (Option.some.inj hb').symm
          rw [neg_neg]
          exact hhead m' hm'

/-- `val_loss_min` after a run equals the most recently persisted metric, or
is untouched when the run persisted nothing. -/
theorem runCalls_val_lastSave :
    ∀ (ms : List ℚ) (s : EarlyStopping),
      (s.savesDuring ms = [] ∧ (s.runCalls ms).val_loss_min = s.val_loss_min) ∨
      (∃ v, (s.savesDuring ms).getLast? = some v ∧
            (s.runCalls ms).val_loss_min = (v : WithTop ℚ))
  | [], s => Or.inl ⟨rfl, rfl⟩
  | m :: ms, s => by
      have hrun : s.runCalls (m :: ms) = (s.callSt m).runCalls ms := rfl
      rcases runCalls_val_lastSave ms (s.callSt m) with ⟨hnil, hval⟩ | ⟨v, hv, hval⟩
      all_goals
        rcases hbs : s.best_score with _ | b
      case inl.intro.none =>
        have hstep := call_first s m hbs
        have hsaves : s.savesDuring (m :: ms) = [m] := by
          simp [savesDuring, hstep, hnil]
        refine Or.inr ⟨m, by rw [hsaves]; rfl, ?_⟩
        rw [hrun, hval, callSt, hstep]
      case inl.intro.some =>
        rcases lt_or_le (-m) (b + s.delta) with hlt | hle
        · have hstep := call_worse s m hbs hlt
          have hsaves : s.savesDuring (m :: ms) = (s.callSt m).savesDuring ms := by
            simp [savesDuring, hstep]
          refine Or.inl ⟨by rw [hsaves, hnil], ?_⟩
          rw [hrun, hval, callSt, hstep]
        · have hstep := call_better s m hbs hle
          have hsaves : s.savesDuring (m :: ms) = [m] := by
            simp [savesDuring, hstep, hnil]
          refine Or.inr ⟨m, by rw [hsaves]; rfl, ?_⟩
          rw [hrun, hval, callSt, hstep]
      case inr.intro.intro.none =>
        have hstep := call_first s m hbs
        have hsaves : s.savesDuring (m :: ms) = m :: (s.callSt m).savesDuring ms := by
          simp [savesDuring, hstep]
        refine Or.inr ⟨v, ?_, by rw [hrun]; exact hval⟩
        rw [hsaves]
        rcases hcons : (s.callSt m).savesDuring ms with _ | ⟨x, xs⟩
        · rw [hcons] at hv
          exact absurd hv (by simp)
        · rw [hcons] at hv
          rw [List.getLast?_cons_cons]
          exact hv
      case inr.intro.intro.some =>
        rcases lt_or_le (-m) (b + s.delta) with hlt | hle
        · have hstep := call_worse s m hbs hlt
          have hsaves : s.savesDuring (m :: ms) = (s.callSt m).savesDuring ms := by
            simp [savesDuring, hstep]
          exact Or.inr ⟨v, by rw [hsaves]; exact hv, by rw [hrun]; exact hval⟩
        · have hstep := call_better s m hbs hle
          have hsaves : s.savesDuring (m :: ms) = m :: (s.callSt m).savesDuring ms := by
            simp [savesDuring, hstep]
          refine Or.inr ⟨v, ?_, by rw [hrun]; exact hval⟩
          rw [hsaves]
          rcases hcons : (s.callSt m).savesDuring ms with _ | ⟨x, xs⟩
          · rw [hcons] at hv
            exact absurd hv (by simp)
          · rw [hcons] at hv
            rw [List.getLast?_cons_cons]
            exact hv

/-- Every call leaves `best_score` set to something. -/
theorem callSt_best_isSome (s : EarlyStopping) (m : ℚ) :
    (s.callSt m).best_score ≠ none := by
  rcases hb : s.best_score with _ | b
  · rw [callSt, call_first s m hb]
    simp
  · rcases lt_or_le (-m) (b + s.delta) with hlt | hle
    · rw [callSt, call_worse s m hb hlt]
      show s.best_score ≠ none
      rw [hb]
      simp
    · rw [callSt, call_better s m hb hle]
      simp

/-- `best_score` stays set across a run once it is set. -/
theorem runCalls_best_isSome :
    ∀ (ms : List ℚ) (s : EarlyStopping), s.best_score ≠ none →
      (s.runCalls ms).best_score ≠ none
  | [], _, h => h
  | m :: ms, s, _ => runCalls_best_isSome ms (s.callSt m) (callSt_best_isSome s m)

end EarlyStopping

/-- C1 counterexample: on a controller with `delta = 0` whose best score was set
by observing the metric 1, observing 1 again (equal to the current best) does
NOT behave as the claim states: the counter does not increment (it is reset to
0) and `save_checkpoint` (the persist) does run. -/
theorem C1_counterexample :
    ¬((((EarlyStopping.init 7 0).callSt 1).call 1).1.counter =
        ((EarlyStopping.init 7 0).callSt 1).counter + 1 ∧
      (((EarlyStopping.init 7 0).callSt 1).call 1).2 = 0) := by
  norm_num [EarlyStopping.callSt, EarlyStopping.call, EarlyStopping.init,
    EarlyStopping.save_checkpoint]

/-- C1 (amended): for every controller with `min_delta = 0`, a subsequent
observe call whose metric equals the current best metric counts as an
improvement, because the code's non-improvement test `score < best_score +
delta` is a strict comparison and a tie fails it: the counter resets to 0, the
best score is re-recorded with the same value, and persist_fn is invoked
once. -/
theorem C1_equal_metric_is_improvement (s : EarlyStopping) (b : ℚ)
    (hd : s.delta = 0) (hb : s.best_score = some b) :
    (s.call (-b)).2 = 1 ∧ (s.call (-b)).1.counter = 0 ∧
      (s.call (-b)).1.best_score = some b := by
  have hle : b + s.delta ≤ -(-b) := by
    rw [hd, add_zero, neg_neg]
  rw [EarlyStopping.call_better s (-b) hb hle]
  refine ⟨rfl, rfl, ?_⟩
  show some (-(-b)) = some b
  rw [neg_neg]

/-- C1 witness: the controller after one observation of metric 1 has
`delta = 0` and best score `-1`; observing the equal metric `-(-1) = 1`
persists, resets the counter and keeps the best score. -/
theorem C1_witness :
    ((EarlyStopping.init 7 0).callSt 1).delta = 0 ∧
    ((EarlyStopping.init 7 0).callSt 1).best_score = some (-1) ∧
    ((((EarlyStopping.init 7 0).callSt 1).call (-(-1 : ℚ))).2 = 1 ∧
     (((EarlyStopping.init 7 0).callSt 1).call (-(-1 : ℚ))).1.counter = 0 ∧
     (((EarlyStopping.init 7 0).callSt 1).call (-(-1 : ℚ))).1.best_score = some (-1)) := by
  have h1 : ((EarlyStopping.init 7 0).callSt 1).delta = 0 := by
    norm_num [EarlyStopping.callSt, EarlyStopping.call, EarlyStopping.init,
      EarlyStopping.save_checkpoint]
  have h2 : ((EarlyStopping.init 7 0).callSt 1).best_score = some (-1) := by
    norm_num [EarlyStopping.callSt, EarlyStopping.call, EarlyStopping.init,
      EarlyStopping.save_checkpoint]
  exact ⟨h1, h2, C1_equal_metric_is_improvement _ (-1) h1 h2⟩

/-- C2 counterexample: with patience 2, `delta = 0` and the metric sequence
0.5, 0.4, 0.3, 0.3 the controller has NOT stopped after the 4th call, though
the claim asserts stop = true there: the repeated 0.3 ties count as
improvements and reset the counter. -/
theorem C2_counterexample :
    ((EarlyStopping.init 2 0).runCalls [1/2, 2/5, 3/10, 3/10]).early_stop = false := by
  norm_num [EarlyStopping.runCalls, EarlyStopping.callSt, EarlyStopping.call,
    EarlyStopping.init, EarlyStopping.save_checkpoint]

/-- C2 (amended): for a fresh controller with patience 2 and `delta = 0`
observing 0.5, 0.4, 0.3, 0.3, 0.3, every call (the equal values included) is
an improvement: after each of the five calls the controller is unstopped with
counter 0, and each call persisted once; stop never becomes true. -/
theorem C2_repeated_metric_never_stops :
    (((EarlyStopping.init 2 0).trace [1/2, 2/5, 3/10, 3/10, 3/10]).all
      (fun r => !r.1.early_stop && r.1.counter == 0 && r.2 == 1)) = true := by
  norm_num [EarlyStopping.trace, EarlyStopping.runCalls, EarlyStopping.callSt,
    EarlyStopping.call, EarlyStopping.init, EarlyStopping.save_checkpoint,
    List.all_cons]

/-- C3 (confirmed): on a fresh controller with `delta = 0` (any patience),
a strictly decreasing metric sequence never stops the controller and every
call persists exactly once. -/
theorem C3_decreasing_never_stops (p : ℤ) (ms : List ℚ)
    (hms : ms.Chain' (fun a b => b < a)) :
    ∀ r ∈ (EarlyStopping.init p 0).trace ms, r.1.early_stop = false ∧ r.2 = 1 :=
  EarlyStopping.trace_decreasing ms (EarlyStopping.init p 0) rfl rfl
    (fun b m hb _ => by simp [EarlyStopping.init] at hb) hms

/-- C3 witness: the strictly decreasing run 3, 2, 1 with default patience 7;
its first call is in the trace, does not stop, and persists once. -/
theorem C3_witness :
    List.Chain' (fun a b : ℚ => b < a) [3, 2, 1] ∧
    (((EarlyStopping.init 7 0).call 3).1.early_stop = false ∧
     ((EarlyStopping.init 7 0).call 3).2 = 1) := by
  refine ⟨by norm_num [List.chain'_cons], C3_decreasing_never_stops 7 [3, 2, 1]
    (by norm_num [List.chain'_cons]) ((EarlyStopping.init 7 0).call 3) ?_⟩
  simp [EarlyStopping.trace]

/-- C4 (confirmed): for a fresh controller with patience `p >= 1`, `delta = 0`,
observing a strictly increasing metric sequence of length at least `p + 1`,
the stopped flag after the 0-indexed call `k` is set exactly when `p <= k`
(that is: it first becomes true at the `(p+1)`-th call and at no earlier
call), and at that call the consecutive non-improving count equals `p`. -/
theorem C4_increasing_stops_at_patience (p : ℕ) (hp : 1 ≤ p) (ms : List ℚ)
    (hch : ms.Chain' (fun a b : ℚ => a < b)) (hlen : p + 1 ≤ ms.length) :
    (∀ k, k < ms.length →
      (((EarlyStopping.init p 0).stateAfter ms k).early_stop = true ↔ p ≤ k)) ∧
    ((EarlyStopping.init p 0).stateAfter ms p).counter = p := by
  rcases ms with _ | ⟨m0, ms2⟩
  · simp at hlen
  · have hpair : ∀ m ∈ ms2, m0 < m := by
      have hpw := List.chain'_iff_pairwise.mp hch
      exact (List.pairwise_cons.mp hpw).1
    have hs1 : (EarlyStopping.init (p : ℤ) 0).callSt m0 =
        { patience := (p : ℤ), delta := 0, counter := 0, best_score := some (-m0),
          early_stop := false, val_loss_min := (m0 : WithTop ℚ) } := by
      rw [EarlyStopping.callSt, EarlyStopping.call_first _ m0 rfl]
      rfl
    have key : ∀ k, k ≤ ms2.length →
        ((EarlyStopping.init (p : ℤ) 0).stateAfter (m0 :: ms2) k).counter = (k : ℤ) ∧
        (((EarlyStopping.init (p : ℤ) 0).stateAfter (m0 :: ms2) k).early_stop = true ↔
          (1 ≤ k ∧ p ≤ k)) := by
      intro k hk
      have hsub : ∀ m ∈ ms2.take k, -(-m0) < m := by
        intro m hm
        rw [neg_neg]
        exact hpair m (List.take_subset k ms2 hm)
      have hw := EarlyStopping.runCalls_worse (b := -m0) (ms2.take k)
        ((EarlyStopping.init (p : ℤ) 0).callSt m0)
        (by rw [hs1]) (by rw [hs1]) hsub
      obtain ⟨hw1, hw2, hw3, hw4⟩ := hw
      have hst : (EarlyStopping.init (p : ℤ) 0).stateAfter (m0 :: ms2) k =
          ((EarlyStopping.init (p : ℤ) 0).callSt m0).runCalls (ms2.take k) := by
        rw [EarlyStopping.stateAfter, List.take_succ_cons]
        rfl
      have ec : ((EarlyStopping.init (p : ℤ) 0).callSt m0).counter = 0 := by rw [hs1]
      have ee : ((EarlyStopping.init (p : ℤ) 0).callSt m0).early_stop = false := by
        rw [hs1]
      have ep : ((EarlyStopping.init (p : ℤ) 0).callSt m0).patience = (p : ℤ) := by
        rw [hs1]
      constructor
      · rw [hst, hw2, ec, List.length_take, Nat.min_eq_left hk]
        omega
      · rw [hst, hw4, ee, ec, ep, List.length_take, Nat.min_eq_left hk]
        simp only [Bool.false_eq_true, false_or, zero_add]
        omega
    constructor
    · intro k hk
      have hk2 : k ≤ ms2.length := by
        simp only [List.length_cons] at hk
        omega
      rw [(key k hk2).2]
      omega
    · have hp2 : p ≤ ms2.length := by
        simp only [List.length_cons] at hlen
        omega
      exact (key p hp2).1

/-- C4 witness: patience 1 with the strictly increasing metrics 1, 2: the
controller stops exactly at the 2nd call (index 1), where the counter is 1. -/
theorem C4_witness :
    (1 : ℕ) ≤ 1 ∧ List.Chain' (fun a b : ℚ => a < b) [1, 2] ∧
    (1 : ℕ) + 1 ≤ ([1, 2] : List ℚ).length ∧
    ((((EarlyStopping.init ((1 : ℕ) : ℤ) 0).stateAfter [1, 2] 1).early_stop = true ↔
        (1 : ℕ) ≤ 1) ∧
     ((EarlyStopping.init ((1 : ℕ) : ℤ) 0).stateAfter [1, 2] 1).counter = ((1 : ℕ) : ℤ)) := by
  have h := C4_increasing_stops_at_patience 1 (le_refl 1) [1, 2]
    (by norm_num [List.chain'_cons]) (by norm_num)
  exact ⟨le_refl 1, by norm_num [List.chain'_cons], by norm_num,
    h.1 1 (by norm_num), h.2⟩

/-- C5 (confirmed, for positive configured patience): in every state reachable
by observe calls from the initial state, (a) a call that records a new best
score (equivalently, that persists) leaves the counter at 0; (b) the stopped
flag turns from false to true only at a call whose resulting counter equals
the configured patience; (c) once the stopped flag is true, it stays true
after every further call. -/
theorem C5_reachable_state_invariants (p : ℤ) (d : ℚ) (hp : 1 ≤ p)
    (ms : List ℚ) (m : ℚ) :
    ((((EarlyStopping.init p d).runCalls ms).call m).2 = 1 →
      (((EarlyStopping.init p d).runCalls ms).call m).1.counter = 0) ∧
    (((EarlyStopping.init p d).runCalls ms).early_stop = false →
      (((EarlyStopping.init p d).runCalls ms).call m).1.early_stop = true →
      (((EarlyStopping.init p d).runCalls ms).call m).1.counter = p) ∧
    (((EarlyStopping.init p d).runCalls ms).early_stop = true →
      (((EarlyStopping.init p d).runCalls ms).call m).1.early_stop = true) := by
  obtain ⟨h1, h2, h3, h4, h5, h6, h7⟩ := EarlyStopping.goodState_reach p d ms
  set s := (EarlyStopping.init p d).runCalls ms with hs
  rcases hb : s.best_score with _ | b
  · rw [EarlyStopping.call_first s m hb]
    exact ⟨fun _ => h4 hb, fun hf ht => absurd (hf.symm.trans ht) Bool.false_ne_true,
      fun ht => ht⟩
  · rcases lt_or_le (-m) (b + s.delta) with hlt | hle
    · rw [EarlyStopping.call_worse s m hb hlt]
      refine ⟨fun h01 => by simp at h01, fun hf ht => ?_, fun ht => ?_⟩
      · show s.counter + 1 = p
        have hcnt : s.counter < p := h5 hp hf
        by_cases hcp : s.counter + 1 ≥ s.patience
        · rw [h1] at hcp
          omega
        · have ht2 : (if s.counter + 1 ≥ s.patience then true else s.early_stop) = true :=
            ht
          rw [if_neg hcp, hf] at ht2
          exact absurd ht2 Bool.false_ne_true
      · show (if s.counter + 1 ≥ s.patience then true else s.early_stop) = true
        by_cases hcp : s.counter + 1 ≥ s.patience
        · rw [if_pos hcp]
        · rw [if_neg hcp]
          exact ht
    · rw [EarlyStopping.call_better s m hb hle]
      exact ⟨fun _ => rfl, fun hf ht => absurd (hf.symm.trans ht) Bool.false_ne_true,
        fun ht => ht⟩

/-- C5 witness: patience 1, no prior calls, one observation of metric 5. -/
theorem C5_witness :
    (1 : ℤ) ≤ 1 ∧
    (((((EarlyStopping.init 1 0).runCalls []).call 5).2 = 1 →
        ((((EarlyStopping.init 1 0).runCalls []).call 5)).1.counter = 0) ∧
     ((((EarlyStopping.init 1 0).runCalls []).early_stop = false →
        ((((EarlyStopping.init 1 0).runCalls []).call 5)).1.early_stop = true →
        ((((EarlyStopping.init 1 0).runCalls []).call 5)).1.counter = 1)) ∧
     (((EarlyStopping.init 1 0).runCalls []).early_stop = true →
        ((((EarlyStopping.init 1 0).runCalls []).call 5)).1.early_stop = true)) :=
  ⟨le_refl 1, C5_reachable_state_invariants 1 0 (le_refl 1) [] 5⟩

/-- C6 counterexample: patience 1, metrics 1 then 2 leave the controller
stopped, yet a further call with the improving metric 1/2 still invokes
persist_fn — contradicting the claim that persist_fn is never invoked by a
call made after the stopped flag has become true. -/
theorem C6_counterexample :
    ((EarlyStopping.init 1 0).runCalls [1, 2]).early_stop = true ∧
    (((EarlyStopping.init 1 0).runCalls [1, 2]).call (1/2)).2 = 1 := by
  constructor
  · norm_num [EarlyStopping.runCalls, EarlyStopping.callSt, EarlyStopping.call,
      EarlyStopping.init, EarlyStopping.save_checkpoint]
  · norm_num [EarlyStopping.runCalls, EarlyStopping.callSt, EarlyStopping.call,
      EarlyStopping.init, EarlyStopping.save_checkpoint]

/-- C6 (amended): each observe call invokes persist_fn at most once, and
invokes it exactly when the call is the first ever (no best score yet) or an
improvement (`best_score + delta ≤ score`); this criterion ignores the
stopped flag, so a call made after stopping persists whenever it improves. -/
theorem C6_persist_iff_improvement (s : EarlyStopping) (m : ℚ) :
    (s.call m).2 ≤ 1 ∧
    ((s.call m).2 = 1 ↔
      (s.best_score = none ∨ ∃ b : ℚ, s.best_score = some b ∧ b + s.delta ≤ -m)) := by
  rcases hb : s.best_score with _ | b
  · rw [EarlyStopping.call_first s m hb]
    simp
  · rcases lt_or_le (-m) (b + s.delta) with hlt | hle
    · rw [EarlyStopping.call_worse s m hb hlt]
      refine ⟨by simp, ?_⟩
      constructor
      · intro h01
        simp at h01
      · rintro (hcontra | ⟨b2, hb2, hle2⟩)
        · exact Option.noConfusion hcontra
        · obtain rfl : b = b2 := Option.some.inj hb2
          exact absurd hle2 (not_le.mpr hlt)
    · rw [EarlyStopping.call_better s m hb hle]
      refine ⟨le_refl 1, ?_⟩
      constructor
      · intro _
        exact Or.inr ⟨b, rfl, hle⟩
      · intro _
        rfl

/-- C7 counterexample: patience 1, metrics 1 then 2 leave the controller
stopped, yet a further observe call with metric 3 mutates the state (the
counter changes from 1 to 2), so calling after STOPPED is neither rejected
nor a no-op. -/
theorem C7_counterexample :
    ((EarlyStopping.init 1 0).runCalls [1, 2]).early_stop = true ∧
    ¬((((EarlyStopping.init 1 0).runCalls [1, 2]).callSt 3).counter =
        ((EarlyStopping.init 1 0).runCalls [1, 2]).counter) := by
  constructor
  · norm_num [EarlyStopping.runCalls, EarlyStopping.callSt, EarlyStopping.call,
      EarlyStopping.init, EarlyStopping.save_checkpoint]
  · norm_num [EarlyStopping.runCalls, EarlyStopping.callSt, EarlyStopping.call,
      EarlyStopping.init, EarlyStopping.save_checkpoint]

/-- C7 (amended): once the stopped flag is true it remains true after any
further observe call, but such a call still mutates the rest of the state
under the usual rules: it either persists (first call or improvement,
updating best score and `val_loss_min`) or increments the counter. -/
theorem C7_stopped_sticky_but_state_mutates (s : EarlyStopping) (m : ℚ)
    (h : s.early_stop = true) :
    (s.callSt m).early_stop = true ∧
    ((s.call m).2 = 1 ∨ (s.callSt m).counter = s.counter + 1) := by
  rcases hb : s.best_score with _ | b
  · rw [EarlyStopping.callSt, EarlyStopping.call_first s m hb]
    exact ⟨h, Or.inl rfl⟩
  · rcases lt_or_le (-m) (b + s.delta) with hlt | hle
    · rw [EarlyStopping.callSt, EarlyStopping.call_worse s m hb hlt]
      refine ⟨?_, Or.inr rfl⟩
      show (if s.counter + 1 ≥ s.patience then true else s.early_stop) = true
      by_cases hcp : s.counter + 1 ≥ s.patience
      · rw [if_pos hcp]
      · rw [if_neg hcp]
        exact h
    · rw [EarlyStopping.callSt, EarlyStopping.call_better s m hb hle]
      exact ⟨h, Or.inl rfl⟩

/-- C7 witness: the stopped controller after patience 1 and metrics 1, 2;
a further call with metric 3 keeps the flag and increments the counter. -/
theorem C7_witness :
    ((EarlyStopping.init 1 0).runCalls [1, 2]).early_stop = true ∧
    ((((EarlyStopping.init 1 0).runCalls [1, 2]).callSt 3).early_stop = true ∧
     ((((EarlyStopping.init 1 0).runCalls [1, 2]).call 3).2 = 1 ∨
      (((EarlyStopping.init 1 0).runCalls [1, 2]).callSt 3).counter =
        ((EarlyStopping.init 1 0).runCalls [1, 2]).counter + 1)) := by
  have h : ((EarlyStopping.init 1 0).runCalls [1, 2]).early_stop = true := by
    norm_num [EarlyStopping.runCalls, EarlyStopping.callSt, EarlyStopping.call,
      EarlyStopping.init, EarlyStopping.save_checkpoint]
  exact ⟨h, C7_stopped_sticky_but_state_mutates _ 3 h⟩

/-- C8 counterexample: construction with `patience = 0` is not rejected: it
yields a working controller whose patience is not positive, and that
controller goes on to process observe calls (stopping at the first
non-improving one). -/
theorem C8_counterexample :
    ¬(1 ≤ (EarlyStopping.init 0 0).patience) ∧
    ((EarlyStopping.init 0 0).runCalls [1, 2]).early_stop = true := by
  constructor
  · show ¬((1 : ℤ) ≤ 0)
    decide
  · norm_num [EarlyStopping.runCalls, EarlyStopping.callSt, EarlyStopping.call,
      EarlyStopping.init, EarlyStopping.save_checkpoint]

/-- C8 (amended): `__init__` performs no validation at all: every integer
patience (including values `≤ 0`) is accepted and stored as given, with the
usual initial state. -/
theorem C8_init_accepts_any_patience (p : ℤ) (d : ℚ) :
    (EarlyStopping.init p d).patience = p ∧ (EarlyStopping.init p d).counter = 0 ∧
    (EarlyStopping.init p d).best_score = none ∧
    (EarlyStopping.init p d).early_stop = false ∧
    (EarlyStopping.init p d).val_loss_min = ⊤ :=
  ⟨rfl, rfl, rfl, rfl, rfl⟩

/-- C9 (confirmed): for patience `p ≥ 1`, after any sequence of observe calls,
if the early_stop flag is false then the counter is strictly below the
configured patience. -/
theorem C9_counter_below_patience (p : ℤ) (d : ℚ) (ms : List ℚ) (hp : 1 ≤ p)
    (hstop : ((EarlyStopping.init p d).runCalls ms).early_stop = false) :
    ((EarlyStopping.init p d).runCalls ms).counter < p :=
  (EarlyStopping.goodState_reach p d ms).2.2.2.2.1 hp hstop

/-- C9 witness: patience 1 after the improving run 2, 1: not stopped and the
counter is below 1. -/
theorem C9_witness :
    (1 : ℤ) ≤ 1 ∧ ((EarlyStopping.init 1 0).runCalls [2, 1]).early_stop = false ∧
    ((EarlyStopping.init 1 0).runCalls [2, 1]).counter < 1 := by
  have hs : ((EarlyStopping.init 1 0).runCalls [2, 1]).early_stop = false := by
    norm_num [EarlyStopping.runCalls, EarlyStopping.callSt, EarlyStopping.call,
      EarlyStopping.init, EarlyStopping.save_checkpoint]
  exact ⟨le_refl 1, hs, C9_counter_below_patience 1 0 [2, 1] (le_refl 1) hs⟩

/-- C10 (confirmed): `val_loss_min` starts at `np.Inf` (`⊤`); for `delta ≥ 0`
it never increases across observe calls; after any run it equals
`-best_score` whenever a best score is recorded (which is the case as soon as
one call has occurred), and it equals the metric of the most recent
checkpoint save. -/
theorem C10_val_loss_min_tracks_best (p : ℤ) (d : ℚ) (hd : 0 ≤ d)
    (ms : List ℚ) (m : ℚ) :
    (EarlyStopping.init p d).val_loss_min = ⊤ ∧
    (((EarlyStopping.init p d).runCalls ms).callSt m).val_loss_min ≤
      ((EarlyStopping.init p d).runCalls ms).val_loss_min ∧
    (∀ b : ℚ, ((EarlyStopping.init p d).runCalls ms).best_score = some b →
      ((EarlyStopping.init p d).runCalls ms).val_loss_min = ((-b : ℚ) : WithTop ℚ)) ∧
    (ms ≠ [] → ((EarlyStopping.init p d).runCalls ms).best_score ≠ none) ∧
    (∀ v : ℚ, ((EarlyStopping.init p d).savesDuring ms).getLast? = some v →
      ((EarlyStopping.init p d).runCalls ms).val_loss_min = (v : WithTop ℚ)) := by
  obtain ⟨h1, h2, h3, h4, h5, h6, h7⟩ := EarlyStopping.goodState_reach p d ms
  set s := (EarlyStopping.init p d).runCalls ms with hs
  refine ⟨rfl, ?_, h6, ?_, ?_⟩
  · rcases hb : s.best_score with _ | b
    · rw [h7 hb]
      exact le_top
    · rcases lt_or_le (-m) (b + s.delta) with hlt | hle
      · rw [EarlyStopping.callSt, EarlyStopping.call_worse s m hb hlt]
      · rw [EarlyStopping.callSt, EarlyStopping.call_better s m hb hle]
        rw [h6 b hb]
        show (m : WithTop ℚ) ≤ ((-b : ℚ) : WithTop ℚ)
        rw [WithTop.coe_le_coe]
        rw [h2] at hle
        linarith
  · rcases ms with _ | ⟨m0, ms2⟩
    · intro hne
      exact absurd rfl hne
    · intro _
      exact EarlyStopping.runCalls_best_isSome ms2
        ((EarlyStopping.init p d).callSt m0)
        (EarlyStopping.callSt_best_isSome (EarlyStopping.init p d) m0)
  · intro v hv
    rcases EarlyStopping.runCalls_val_lastSave ms (EarlyStopping.init p d) with
      ⟨hnil, _⟩ | ⟨w, hw, hwval⟩
    · rw [hnil] at hv
      exact absurd hv (by simp)
    · rw [hw] at hv
      obtain rfl : w = v := Option.some.inj hv
      exact hwval

/-- C10 witness: `delta = 0 ≥ 0`, one observation of metric 2 and then one of
metric 1: `val_loss_min` starts infinite and does not increase at the next
call. -/
theorem C10_witness :
    (0 : ℚ) ≤ 0 ∧ (EarlyStopping.init 7 0).val_loss_min = ⊤ ∧
    (((EarlyStopping.init 7 0).runCalls [2]).callSt 1).val_loss_min ≤
      ((EarlyStopping.init 7 0).runCalls [2]).val_loss_min := by
  have h := C10_val_loss_min_tracks_best 7 0 (le_refl 0) [2] 1
  exact ⟨le_refl 0, h.1, h.2.1⟩
